import Mathlib

/-!
Verification of `bayesloop/jeffreys.py`.

The module has two independent functions:
* `getJeffreysPrior(rv)` — derives the Jeffreys prior of a SymPy random
  variable symbolically, via the Fisher information matrix;
* `computeJeffreysPriorAR1(study)` — evaluates Uhlig's closed-form AR1
  Jeffreys prior on a numeric parameter grid.

The numeric part is embedded over `ℝ` (numpy double arithmetic modelled by
real arithmetic; `**.5` is real `rpow`, `np.sqrt` is `Real.sqrt`, `np.exp`
is `Real.exp`).  The symbolic part is embedded parametrically over an
abstract symbolic engine (`SymEngine`) whose fields record the SymPy
operations the code calls, together with the algebraic facts about SymPy
that the code relies on (commutative associative `Mul`, and how each
operation acts on the set of free symbols of an expression).
-/

namespace Jeffreys

/-! ### Part 1: the AR1 closed-form prior (`computeJeffreysPriorAR1`) -/

/-- The fields of the host `Study` object that `computeJeffreysPriorAR1`
reads: the observation-model name (the code compares `str(study.observationModel)`
against two fixed strings), the two parallel parameter grids `r, s = study.grid`,
and the raw observation sequence `study.rawData`. -/
structure Study where
  observationModel : String
  grid : List ℝ × List ℝ
  rawData : List ℝ

/-- Model name accepted by the first branch of `computeJeffreysPriorAR1`. -/
def nameAR1 : String := "Autoregressive process of first order (AR1)"

/-- Model name accepted by the second branch of `computeJeffreysPriorAR1`. -/
def nameScaledAR1 : String := "Scaled autoregressive process of first order (AR1)"

/-- Diagnostic printed when the model name is not recognized. -/
def msgUnsupported : String :=
  "! Jeffreys prior for autoregressive process can only be used with AR1 and ScaledAR1 models."

/-- First diagnostic line printed on a non-stationary grid. -/
def msgNonStationary1 : String :=
  "! Jeffreys prior for auto-regressive process is only implemented for stationary processes."

/-- Second diagnostic line printed on a non-stationary grid. -/
def msgNonStationary2 : String :=
  "  Values abs(r) >= 1 are not allowed for this implementation of the prior."

/-- Third diagnostic line printed on a non-stationary grid. -/
def msgNonStationary3 : String :=
  "  Will set flat prior instead."

/-- Diagnostic printed when no data has been loaded. -/
def msgMissingData : String :=
  "! Data must be loaded before computing the Jeffreys prior for the autoregressive process."

/-- Result of `computeJeffreysPriorAR1`: the diagnostics it prints, and the
grid it returns (`none` models the bare `return` with no value). -/
structure AR1Result where
  messages : List String
  grid : Option (List ℝ)

/-- `prior /= np.sum(prior)` / `flat /= np.sum(flat)`: divide every entry of
an array by the sum of its entries. -/
noncomputable def normalize (l : List ℝ) : List ℝ :=
  l.map (fun v => v / l.sum)

/-- Line 95 of `jeffreys.py`:
`(1/s**2.)*np.exp(-d0**2.*(1-r**2.)/(2*s**2.))*(4*(r**2.)/(1-r**2.)+2*(n+1))**.5`,
with numpy double arithmetic modelled over `ℝ` and `**.5` modelled as real
`rpow` by `1/2` (the numpy literal `.5` is exactly `1/2`). -/
noncomputable def ar1PriorFormula (d0 : ℝ) (n : ℕ) (r s : ℝ) : ℝ :=
  (1 / s ^ 2) * Real.exp (-d0 ^ 2 * (1 - r ^ 2) / (2 * s ^ 2)) *
    (4 * r ^ 2 / (1 - r ^ 2) + 2 * ((n : ℝ) + 1)) ^ ((1 : ℝ) / 2)

open Classical in
/-- Lines 79–97 of `jeffreys.py`, the part after the model-name dispatch:
the stationarity check (`np.any(np.abs(r) >= 1.)`), the flat-prior fallback,
the empty-data check (`len(study.rawData) == 0`), and the closed-form prior
with `d0 = study.rawData[0]`, `n = len(study.rawData)`. -/
noncomputable def ar1Core (r s rawData : List ℝ) : AR1Result :=
  if ∃ ri ∈ r, |ri| ≥ 1 then
    { messages := [msgNonStationary1, msgNonStationary2, msgNonStationary3]
      grid := some (normalize (r.map (fun _ => (1 : ℝ)))) }
  else if rawData.length = 0 then
    { messages := [msgMissingData], grid := none }
  else
    { messages := []
      grid := some (normalize
        (List.zipWith (ar1PriorFormula rawData.headI rawData.length) r s)) }

/-- Lines 70–97 of `jeffreys.py` (`computeJeffreysPriorAR1`): dispatch on the
observation-model name; in the scaled branch the scale grid is first rescaled
elementwise by `s = s*np.sqrt(1 - r**2.)`; any other name prints a diagnostic
and returns nothing. -/
noncomputable def computeJeffreysPriorAR1 (study : Study) : AR1Result :=
  if study.observationModel = nameAR1 then
    ar1Core study.grid.1 study.grid.2 study.rawData
  else if study.observationModel = nameScaledAR1 then
    ar1Core study.grid.1
      (List.zipWith (fun si ri => si * Real.sqrt (1 - ri ^ 2)) study.grid.2 study.grid.1)
      study.rawData
  else
    { messages := [msgUnsupported], grid := none }

/-- The scale grid actually fed to the closed-form formula: the raw `s` grid
for the plain AR1 model, the rescaled grid `s*np.sqrt(1 - r**2.)` for the
scaled model. -/
noncomputable def effectiveScale (study : Study) : List ℝ :=
  if study.observationModel = nameScaledAR1 then
    List.zipWith (fun si ri => si * Real.sqrt (1 - ri ^ 2)) study.grid.2 study.grid.1
  else
    study.grid.2

/-- Uhlig's closed-form expression exactly as the specification writes it:
`prior(r, s) = (1/s²) · exp(−d0²·(1−r²) / (2s²)) · sqrt(4r²/(1−r²) + 2(n+1))`. -/
noncomputable def specUhligPrior (d0 : ℝ) (n : ℕ) (r s : ℝ) : ℝ :=
  (1 / s ^ 2) * Real.exp (-d0 ^ 2 * (1 - r ^ 2) / (2 * s ^ 2)) *
    Real.sqrt (4 * r ^ 2 / (1 - r ^ 2) + 2 * ((n : ℝ) + 1))

lemma ar1PriorFormula_eq_spec (d0 : ℝ) (n : ℕ) (r s : ℝ) :
    ar1PriorFormula d0 n r s = specUhligPrior d0 n r s := by
  unfold ar1PriorFormula specUhligPrior
  rw [Real.sqrt_eq_rpow]

/-! ### Helper lemmas for the AR1 component -/

lemma exists_of_mem_zipWith {α β γ : Type*} {f : α → β → γ} {l₁ : List α} {l₂ : List β} {c : γ}
    (h : c ∈ List.zipWith f l₁ l₂) : ∃ a ∈ l₁, ∃ b ∈ l₂, c = f a b := by
  induction l₁ generalizing l₂ with
  | nil => simp at h
  | cons a t ih =>
    cases l₂ with
    | nil => simp at h
    | cons b t₂ =>
      simp only [List.zipWith_cons_cons, List.mem_cons] at h
      rcases h with h | h
      · exact ⟨a, by simp, b, by simp, h⟩
      · obtain ⟨a', ha, b', hb, rfl⟩ := ih h
        exact ⟨a', by simp [ha], b', by simp [hb], rfl⟩

lemma sum_map_div (l : List ℝ) (c : ℝ) : (l.map (fun v => v / c)).sum = l.sum / c := by
  induction l with
  | nil => simp
  | cons a t ih => simp [ih, add_div]

lemma sum_map_one (l : List ℝ) : (l.map (fun _ => (1 : ℝ))).sum = l.length := by
  induction l with
  | nil => simp
  | cons a t ih => simp [ih]; ring

/-- The flat fallback `np.ones_like(r) / np.sum(np.ones_like(r))` is the
uniform grid with every entry `1 / r.length`. -/
lemma normalize_ones (r : List ℝ) :
    normalize (r.map (fun _ => (1 : ℝ))) = r.map (fun _ => 1 / (r.length : ℝ)) := by
  unfold normalize
  rw [List.map_map, sum_map_one]
  apply List.map_congr_left
  intro a _
  simp

lemma normalize_sum (l : List ℝ) (h : l.sum ≠ 0) : (normalize l).sum = 1 := by
  unfold normalize
  rw [sum_map_div, div_self h]

lemma one_sub_sq_pos_of_abs_lt_one {r : ℝ} (hr : |r| < 1) : 0 < 1 - r ^ 2 := by
  have h := abs_lt.mp hr
  nlinarith [h.1, h.2]

lemma ar1PriorFormula_pos (d0 : ℝ) (n : ℕ) (r s : ℝ) (hr : |r| < 1) (hs : s ≠ 0) :
    0 < ar1PriorFormula d0 n r s := by
  unfold ar1PriorFormula
  have h1 : (0 : ℝ) < 1 - r ^ 2 := one_sub_sq_pos_of_abs_lt_one hr
  have hb : (0 : ℝ) < 4 * r ^ 2 / (1 - r ^ 2) + 2 * ((n : ℝ) + 1) := by positivity
  positivity

lemma ar1Core_stationary (r s raw : List ℝ)
    (hstat : ∀ ri ∈ r, |ri| < 1) (hdata : raw.length ≠ 0) :
    ar1Core r s raw =
      { messages := []
        grid := some (normalize (List.zipWith (ar1PriorFormula raw.headI raw.length) r s)) } := by
  unfold ar1Core
  rw [if_neg, if_neg hdata]
  rintro ⟨ri, hmem, hge⟩
  exact absurd (hstat ri hmem) (not_lt.mpr hge)

lemma ar1Core_nonstationary (r s raw : List ℝ) (hns : ∃ ri ∈ r, |ri| ≥ 1) :
    ar1Core r s raw =
      { messages := [msgNonStationary1, msgNonStationary2, msgNonStationary3]
        grid := some (r.map (fun _ => 1 / (r.length : ℝ))) } := by
  unfold ar1Core
  rw [if_pos hns, normalize_ones]

lemma scaledAR1_ne_AR1 : nameScaledAR1 ≠ nameAR1 := by
  unfold nameScaledAR1 nameAR1
  decide

/-! ### AR1 claim theorems -/

/-- **C1**: for a study whose observation-model name is a supported AR1
variant, whose grid has `|r| < 1` at every point, and whose raw data is
non-empty, `computeJeffreysPriorAR1` computes the unnormalized prior
elementwise over the grid as Uhlig's closed form
`(1/s²)·exp(−d0²·(1−r²)/(2s²))·sqrt(4r²/(1−r²) + 2(n+1))` — with `d0` the
first raw observation, `n` the observation count, and, for the scaled
variant, the scale grid first rescaled to `s·sqrt(1−r²)` — and returns that
grid normalized. -/
theorem claim_C1_closed_form (study : Study)
    (hstat : ∀ ri ∈ study.grid.1, |ri| < 1)
    (hdata : study.rawData.length ≠ 0) :
    (study.observationModel = nameAR1 →
      (computeJeffreysPriorAR1 study).grid = some (normalize
        (List.zipWith (specUhligPrior study.rawData.headI study.rawData.length)
          study.grid.1 study.grid.2)))
    ∧ (study.observationModel = nameScaledAR1 →
      (computeJeffreysPriorAR1 study).grid = some (normalize
        (List.zipWith (specUhligPrior study.rawData.headI study.rawData.length)
          study.grid.1
          (List.zipWith (fun si ri => si * Real.sqrt (1 - ri ^ 2))
            study.grid.2 study.grid.1)))) := by
  have hfun : ar1PriorFormula study.rawData.headI study.rawData.length =
      specUhligPrior study.rawData.headI study.rawData.length :=
    funext fun r => funext fun s => ar1PriorFormula_eq_spec _ _ r s
  constructor
  · intro hname
    unfold computeJeffreysPriorAR1
    rw [if_pos hname, ar1Core_stationary _ _ _ hstat hdata, hfun]
  · intro hname
    unfold computeJeffreysPriorAR1
    rw [if_neg (by rw [hname]; exact scaledAR1_ne_AR1), if_pos hname,
      ar1Core_stationary _ _ _ hstat hdata, hfun]

/-- Witness for C1 at the concrete study
`(AR1, r = [0], s = [1], rawData = [1])`. -/
theorem claim_C1_closed_form_witness :
    (∀ ri ∈ (Study.mk nameAR1 ([0], [1]) [1]).grid.1, |ri| < 1) ∧
    (Study.mk nameAR1 ([0], [1]) [1]).rawData.length ≠ 0 ∧
    (computeJeffreysPriorAR1 (Study.mk nameAR1 ([0], [1]) [1])).grid =
      some (normalize (List.zipWith (specUhligPrior 1 1) [0] [1])) := by
  have h1 : ∀ ri ∈ (Study.mk nameAR1 ([0], [1]) [1]).grid.1, |ri| < 1 := by
    intro ri h
    simp only [List.mem_singleton] at h
    rw [h]
    norm_num
  have h2 : (Study.mk nameAR1 ([0], [1]) [1]).rawData.length ≠ 0 := by simp
  exact ⟨h1, h2, (claim_C1_closed_form _ h1 h2).1 rfl⟩

/-- **C2**: if any grid point has `|r| ≥ 1`, `computeJeffreysPriorAR1`
abandons the closed form and returns the uniform distribution: every entry
equals `1 / total_grid_points`, whatever the raw data or the values at the
stationary points. -/
theorem claim_C2_flat_fallback (study : Study)
    (hname : study.observationModel = nameAR1 ∨ study.observationModel = nameScaledAR1)
    (hns : ∃ ri ∈ study.grid.1, |ri| ≥ 1) :
    (computeJeffreysPriorAR1 study).grid =
      some (study.grid.1.map (fun _ => 1 / (study.grid.1.length : ℝ))) := by
  unfold computeJeffreysPriorAR1
  rcases hname with hname | hname
  · rw [if_pos hname, ar1Core_nonstationary _ _ _ hns]
  · rw [if_neg (by rw [hname]; exact scaledAR1_ne_AR1), if_pos hname,
      ar1Core_nonstationary _ _ _ hns]

/-- Witness for C2 at the concrete study
`(AR1, r = [0.5, 2], s = [1, 1], rawData = [1])`. -/
theorem claim_C2_flat_fallback_witness :
    ((Study.mk nameAR1 ([0.5, 2], [1, 1]) [1]).observationModel = nameAR1 ∨
      (Study.mk nameAR1 ([0.5, 2], [1, 1]) [1]).observationModel = nameScaledAR1) ∧
    (∃ ri ∈ (Study.mk nameAR1 ([0.5, 2], [1, 1]) [1]).grid.1, |ri| ≥ 1) ∧
    (computeJeffreysPriorAR1 (Study.mk nameAR1 ([0.5, 2], [1, 1]) [1])).grid =
      some [1 / 2, 1 / 2] := by
  have h1 : (Study.mk nameAR1 ([0.5, 2], [1, 1]) [1]).observationModel = nameAR1 ∨
      (Study.mk nameAR1 ([0.5, 2], [1, 1]) [1]).observationModel = nameScaledAR1 :=
    Or.inl rfl
  have h2 : ∃ ri ∈ (Study.mk nameAR1 ([0.5, 2], [1, 1]) [1]).grid.1, |ri| ≥ 1 := by
    refine ⟨2, by simp, by norm_num⟩
  refine ⟨h1, h2, ?_⟩
  rw [claim_C2_flat_fallback _ h1 h2]
  norm_num

lemma ar1Core_grid_none_iff (r s raw : List ℝ) :
    (ar1Core r s raw).grid = none ↔ ((∀ ri ∈ r, |ri| < 1) ∧ raw.length = 0) := by
  unfold ar1Core
  by_cases h : ∃ ri ∈ r, |ri| ≥ 1
  · rw [if_pos h]
    simp only [Option.some_ne_none, false_iff]
    rintro ⟨hall, -⟩
    obtain ⟨ri, hmem, hge⟩ := h
    exact absurd (hall ri hmem) (not_lt.mpr hge)
  · rw [if_neg h]
    push_neg at h
    by_cases h4 : raw.length = 0
    · rw [if_pos h4]
      simp only [true_iff]
      exact ⟨h, h4⟩
    · rw [if_neg h4]
      simp only [Option.some_ne_none, false_iff]
      rintro ⟨-, h0⟩
      exact h4 h0

/-- **C7**: `computeJeffreysPriorAR1` signals a diagnostic and returns no
grid in exactly two cases: the model name matches neither supported AR1
variant, or the grid is fully stationary but the raw data is empty. -/
theorem claim_C7_no_grid_cases (study : Study) :
    ((computeJeffreysPriorAR1 study).grid = none ↔
      ((study.observationModel ≠ nameAR1 ∧ study.observationModel ≠ nameScaledAR1) ∨
        ((study.observationModel = nameAR1 ∨ study.observationModel = nameScaledAR1) ∧
          (∀ ri ∈ study.grid.1, |ri| < 1) ∧ study.rawData.length = 0)))
    ∧ ((computeJeffreysPriorAR1 study).grid = none →
        (computeJeffreysPriorAR1 study).messages ≠ []) := by
  unfold computeJeffreysPriorAR1
  by_cases h1 : study.observationModel = nameAR1
  · rw [if_pos h1]
    constructor
    · rw [ar1Core_grid_none_iff]
      constructor
      · intro h
        exact Or.inr ⟨Or.inl h1, h⟩
      · rintro (⟨hne, -⟩ | ⟨-, h⟩)
        · exact absurd h1 hne
        · exact h
    · intro hnone
      rw [ar1Core_grid_none_iff] at hnone
      unfold ar1Core
      rw [if_neg, if_pos hnone.2]
      · simp [msgMissingData]
      · rintro ⟨ri, hmem, hge⟩
        exact absurd (hnone.1 ri hmem) (not_lt.mpr hge)
  · rw [if_neg h1]
    by_cases h2 : study.observationModel = nameScaledAR1
    · rw [if_pos h2]
      constructor
      · rw [ar1Core_grid_none_iff]
        constructor
        · intro h
          exact Or.inr ⟨Or.inr h2, h⟩
        · rintro (⟨-, hne⟩ | ⟨-, h⟩)
          · exact absurd h2 hne
          · exact h
      · intro hnone
        rw [ar1Core_grid_none_iff] at hnone
        unfold ar1Core
        rw [if_neg, if_pos hnone.2]
        · simp [msgMissingData]
        · rintro ⟨ri, hmem, hge⟩
          exact absurd (hnone.1 ri hmem) (not_lt.mpr hge)
    · rw [if_neg h2]
      constructor
      · simp only [true_iff]
        exact Or.inl ⟨h1, h2⟩
      · intro _
        simp [msgUnsupported]

/-- **C10**: the stationarity check precedes the raw-data check — with a
recognized model name, a grid point with `|r| ≥ 1` and empty raw data, the
function returns the normalized flat prior and emits the non-stationarity
diagnostics, never the missing-data one. -/
theorem claim_C10_stationarity_first (study : Study)
    (hname : study.observationModel = nameAR1 ∨ study.observationModel = nameScaledAR1)
    (hns : ∃ ri ∈ study.grid.1, |ri| ≥ 1)
    (_hdata : study.rawData.length = 0) :
    (computeJeffreysPriorAR1 study).grid =
      some (study.grid.1.map (fun _ => 1 / (study.grid.1.length : ℝ)))
    ∧ (computeJeffreysPriorAR1 study).messages =
        [msgNonStationary1, msgNonStationary2, msgNonStationary3]
    ∧ msgMissingData ∉ (computeJeffreysPriorAR1 study).messages := by
  have hcore : ∀ s : List ℝ, ar1Core study.grid.1 s study.rawData =
      { messages := [msgNonStationary1, msgNonStationary2, msgNonStationary3]
        grid := some (study.grid.1.map (fun _ => 1 / (study.grid.1.length : ℝ))) } :=
    fun s => ar1Core_nonstationary _ _ _ hns
  have hmsg : msgMissingData ∉ [msgNonStationary1, msgNonStationary2, msgNonStationary3] := by
    unfold msgMissingData msgNonStationary1 msgNonStationary2 msgNonStationary3
    decide
  unfold computeJeffreysPriorAR1
  rcases hname with hname | hname
  · rw [if_pos hname, hcore]
    exact ⟨rfl, rfl, hmsg⟩
  · rw [if_neg (by rw [hname]; exact scaledAR1_ne_AR1), if_pos hname, hcore]
    exact ⟨rfl, rfl, hmsg⟩

/-- Witness for C10 at the concrete study
`(AR1, r = [2], s = [1], rawData = [])`. -/
theorem claim_C10_stationarity_first_witness :
    ((Study.mk nameAR1 ([2], [1]) []).observationModel = nameAR1 ∨
      (Study.mk nameAR1 ([2], [1]) []).observationModel = nameScaledAR1) ∧
    (∃ ri ∈ (Study.mk nameAR1 ([2], [1]) []).grid.1, |ri| ≥ 1) ∧
    (Study.mk nameAR1 ([2], [1]) []).rawData.length = 0 ∧
    (computeJeffreysPriorAR1 (Study.mk nameAR1 ([2], [1]) [])).grid = some [1] := by
  have h1 : (Study.mk nameAR1 ([2], [1]) []).observationModel = nameAR1 ∨
      (Study.mk nameAR1 ([2], [1]) []).observationModel = nameScaledAR1 := Or.inl rfl
  have h2 : ∃ ri ∈ (Study.mk nameAR1 ([2], [1]) []).grid.1, |ri| ≥ 1 :=
    ⟨2, by simp, by norm_num⟩
  have h3 : (Study.mk nameAR1 ([2], [1]) []).rawData.length = 0 := rfl
  refine ⟨h1, h2, h3, ?_⟩
  rw [(claim_C10_stationarity_first _ h1 h2 h3).1]
  norm_num

lemma sum_map_const (l : List ℝ) (c : ℝ) : (l.map (fun _ => c)).sum = l.length * c := by
  induction l with
  | nil => simp
  | cons a t ih =>
    simp [ih]
    ring

lemma ar1Core_normalized (r s raw : List ℝ) (g : List ℝ)
    (hret : (ar1Core r s raw).grid = some g) (hne : g ≠ [])
    (hs : (∀ ri ∈ r, |ri| < 1) → ∀ si ∈ s, si ≠ 0) :
    g.sum = 1 ∧ ∀ x ∈ g, 0 ≤ x := by
  by_cases hstat : ∃ ri ∈ r, |ri| ≥ 1
  · rw [ar1Core_nonstationary _ _ _ hstat] at hret
    obtain rfl : r.map (fun _ => 1 / (r.length : ℝ)) = g := Option.some.inj hret
    have hr : r ≠ [] := by
      intro h0
      rw [h0] at hne
      exact hne rfl
    have hlen : (r.length : ℝ) ≠ 0 := by
      have h0 : r.length ≠ 0 := fun h0 => hr (List.length_eq_zero.mp h0)
      exact_mod_cast h0
    constructor
    · rw [sum_map_const, mul_one_div, div_self hlen]
    · intro x hx
      obtain ⟨-, -, rfl⟩ := List.mem_map.mp hx
      positivity
  · push_neg at hstat
    by_cases hdata : raw.length = 0
    · unfold ar1Core at hret
      rw [if_neg, if_pos hdata] at hret
      · exact absurd hret (by simp)
      · rintro ⟨ri, hmem, hge⟩
        exact absurd (hstat ri hmem) (not_lt.mpr hge)
    · rw [ar1Core_stationary _ _ _ hstat hdata] at hret
      obtain rfl : normalize (List.zipWith (ar1PriorFormula raw.headI raw.length) r s) = g :=
        Option.some.inj hret
      set prior := List.zipWith (ar1PriorFormula raw.headI raw.length) r s with hprior
      have hpos : ∀ x ∈ prior, 0 < x := by
        intro x hx
        obtain ⟨ri, hri, si, hsi, rfl⟩ := exists_of_mem_zipWith hx
        exact ar1PriorFormula_pos _ _ _ _ (hstat ri hri) (hs hstat si hsi)
      have hpne : prior ≠ [] := by
        intro h0
        rw [show normalize prior = prior.map (fun v => v / prior.sum) from rfl, h0] at hne
        exact hne rfl
      have hsum : 0 < prior.sum := List.sum_pos prior hpos hpne
      constructor
      · exact normalize_sum prior (ne_of_gt hsum)
      · intro x hx
        obtain ⟨v, hv, rfl⟩ := List.mem_map.mp hx
        exact le_of_lt (div_pos (hpos v hv) hsum)

/-- **C6 counterexample**: at the study `(AR1, r = [0], s = [0], rawData = [1])`
all grid points are stationary, so the closed-form path is taken and a
non-empty grid is returned, yet it is `[0]` and sums to `0`, not `1`
(the numpy computation produces `nan` at this input: `1/s**2.` is `inf` and
`inf * 0` is `nan`, so the claim's normalization invariant fails there too). -/
theorem claim_C6_counterexample :
    (computeJeffreysPriorAR1 (Study.mk nameAR1 ([0], [0]) [1])).grid = some [(0 : ℝ)] ∧
    ([(0 : ℝ)] ≠ []) ∧ (List.sum [(0 : ℝ)] = 1 → False) := by
  refine ⟨?_, by simp, by norm_num⟩
  have hstat : ∀ ri ∈ (Study.mk nameAR1 ([0], [0]) [1]).grid.1, |ri| < 1 := by
    intro ri h
    simp only [List.mem_singleton] at h
    rw [h]
    norm_num
  have hdata : (Study.mk nameAR1 ([0], [0]) [1]).rawData.length ≠ 0 := by simp
  unfold computeJeffreysPriorAR1
  rw [if_pos rfl, ar1Core_stationary _ _ _ hstat hdata]
  norm_num [normalize, ar1PriorFormula]

/-- **C6** (amended): every grid returned by `computeJeffreysPriorAR1` sums
to `1` and has non-negative entries, provided it is non-empty and — when the
closed-form path is taken, i.e. the grid is fully stationary — every
effective scale value is nonzero (at a zero scale the formula divides by
zero and the invariant fails, see the counterexample). -/
theorem claim_C6_amended_normalization (study : Study) (g : List ℝ)
    (hret : (computeJeffreysPriorAR1 study).grid = some g)
    (hne : g ≠ [])
    (hs : (∀ ri ∈ study.grid.1, |ri| < 1) → ∀ si ∈ effectiveScale study, si ≠ 0) :
    g.sum = 1 ∧ ∀ x ∈ g, 0 ≤ x := by
  unfold computeJeffreysPriorAR1 at hret
  by_cases h1 : study.observationModel = nameAR1
  · rw [if_pos h1] at hret
    have hes : effectiveScale study = study.grid.2 := by
      unfold effectiveScale
      rw [if_neg (fun (h : study.observationModel = nameScaledAR1) =>
        scaledAR1_ne_AR1 (h.symm.trans h1))]
    rw [hes] at hs
    exact ar1Core_normalized _ _ _ g hret hne hs
  · rw [if_neg h1] at hret
    by_cases h2 : study.observationModel = nameScaledAR1
    · rw [if_pos h2] at hret
      have hes : effectiveScale study =
          List.zipWith (fun si ri => si * Real.sqrt (1 - ri ^ 2))
            study.grid.2 study.grid.1 := by
        unfold effectiveScale
        rw [if_pos h2]
      rw [hes] at hs
      exact ar1Core_normalized _ _ _ g hret hne hs
    · rw [if_neg h2] at hret
      exact absurd hret (by simp)

/-- Witness for the amended C6 at the concrete study
`(AR1, r = [0], s = [1], rawData = [1])`: the returned closed-form grid sums
to `1` with non-negative entries. -/
theorem claim_C6_amended_normalization_witness :
    (computeJeffreysPriorAR1 (Study.mk nameAR1 ([0], [1]) [1])).grid =
      some (normalize (List.zipWith (ar1PriorFormula 1 1) [0] [1])) ∧
    normalize (List.zipWith (ar1PriorFormula 1 1) [0] [1]) ≠ [] ∧
    (normalize (List.zipWith (ar1PriorFormula 1 1) [0] [1])).sum = 1 ∧
    ∀ x ∈ normalize (List.zipWith (ar1PriorFormula 1 1) [0] [1]), 0 ≤ x := by
  have hstat : ∀ ri ∈ (Study.mk nameAR1 ([0], [1]) [1]).grid.1, |ri| < 1 := by
    intro ri h
    simp only [List.mem_singleton] at h
    rw [h]
    norm_num
  have hdata : (Study.mk nameAR1 ([0], [1]) [1]).rawData.length ≠ 0 := by simp
  have hret : (computeJeffreysPriorAR1 (Study.mk nameAR1 ([0], [1]) [1])).grid =
      some (normalize (List.zipWith (ar1PriorFormula 1 1) [0] [1])) := by
    unfold computeJeffreysPriorAR1
    rw [if_pos rfl, ar1Core_stationary _ _ _ hstat hdata]
    rfl
  have hne : normalize (List.zipWith (ar1PriorFormula 1 1) [0] [1]) ≠ [] := by
    simp [normalize]
  have hs : (∀ ri ∈ (Study.mk nameAR1 ([0], [1]) [1]).grid.1, |ri| < 1) →
      ∀ si ∈ effectiveScale (Study.mk nameAR1 ([0], [1]) [1]), si ≠ 0 := by
    intro _ si hsi
    have hes : effectiveScale (Study.mk nameAR1 ([0], [1]) [1]) = [1] := by
      unfold effectiveScale
      rw [if_neg (fun (h : (Study.mk nameAR1 ([0], [1]) [1]).observationModel = nameScaledAR1) =>
        scaledAR1_ne_AR1 h.symm)]
    rw [hes] at hsi
    simp only [List.mem_singleton] at hsi
    rw [hsi]
    norm_num
  obtain ⟨hsum, hnn⟩ := claim_C6_amended_normalization _ _ hret hne hs
  exact ⟨hret, hne, hsum, hnn⟩

/-! ### Part 2: the generic symbolic Jeffreys prior (`getJeffreysPrior`)

`getJeffreysPrior` is control flow over SymPy: all symbolic work is done by
the engine.  The spec treats the symbolic engine as an opaque injected
capability, so it is embedded as a structure of operations together with
the facts about SymPy that the code relies on: `Mul` is commutative and
associative (SymPy's `Mul` flattens and canonically sorts its arguments),
`diff`/`simplify`/`ln`/`sqrt` introduce no new free symbols, a definite
`integrate`/`summation` eliminates its bound variable (keeping at most the
symbols of the bounds), a determinant's symbols come from the matrix
entries, and `lambdify(params, e)` binds its arguments to `params`
positionally. -/

/-- Positional binding of symbols to arguments, as `lambdify(params, expr)`
does: the symbol at position `i` of the parameter list receives the `i`-th
argument (a symbol not in the list reads as `0`). -/
def positionalBind {σ : Type} [DecidableEq σ] : List σ → List ℝ → σ → ℝ
  | [], _, _ => 0
  | p :: ps, args, v => if v = p then args.headI else positionalBind ps args.tail v

/-- Abstract interface to the SymPy operations `getJeffreysPrior` calls
(lines 33–58 of `jeffreys.py`), with the SymPy facts the verification
relies on as laws. -/
structure SymEngine where
  Expr : Type
  Sym : Type
  decEq : DecidableEq Sym
  /-- the fixed auxiliary variate symbol `sympy.abc.x` (line 37) -/
  xSym : Sym
  mul : Expr → Expr → Expr
  ln : Expr → Expr
  sqrt : Expr → Expr
  diff : Expr → Sym → Expr
  simplify : Expr → Expr
  integrate : Expr → Sym × Expr × Expr → Expr
  summation : Expr → Sym × Expr × Expr → Expr
  det : {k : ℕ} → Matrix (Fin k) (Fin k) Expr → Expr
  lambdify : List Sym → Expr → (List ℝ → ℝ)
  evalAt : Expr → (Sym → ℝ) → ℝ
  freeSymbols : Expr → Set Sym
  mul_comm : ∀ a b, mul a b = mul b a
  mul_assoc : ∀ a b c, mul (mul a b) c = mul a (mul b c)
  freeSymbols_mul : ∀ a b, freeSymbols (mul a b) ⊆ freeSymbols a ∪ freeSymbols b
  freeSymbols_ln : ∀ a, freeSymbols (ln a) ⊆ freeSymbols a
  freeSymbols_sqrt : ∀ a, freeSymbols (sqrt a) ⊆ freeSymbols a
  freeSymbols_diff : ∀ a v, freeSymbols (diff a v) ⊆ freeSymbols a
  freeSymbols_simplify : ∀ a, freeSymbols (simplify a) ⊆ freeSymbols a
  freeSymbols_integrate : ∀ a v lo hi,
    freeSymbols (integrate a (v, lo, hi)) ⊆
      (freeSymbols a \ {v}) ∪ freeSymbols lo ∪ freeSymbols hi
  freeSymbols_summation : ∀ a v lo hi,
    freeSymbols (summation a (v, lo, hi)) ⊆
      (freeSymbols a \ {v}) ∪ freeSymbols lo ∪ freeSymbols hi
  freeSymbols_det : ∀ {k : ℕ} (M : Matrix (Fin k) (Fin k) Expr),
    freeSymbols (det M) ⊆ ⋃ i, ⋃ j, freeSymbols (M i j)
  lambdify_spec : ∀ ps e args,
    lambdify ps e args = evalAt e (@positionalBind _ decEq ps args)

/-- The parts of a SymPy `RandomSymbol` that the code reads:
`rv._sorted_args[0].distribution.set` (the support, with its `is_iterable`
flag and `inf`/`sup` bounds, lines 33, 46, 52),
`rv._sorted_args[0].distribution.free_symbols` as an ordered list
(line 36), and `density(rv)` applied to a variate symbol (line 40). -/
structure RandomVar (E : SymEngine) where
  supportIterable : Bool
  supportInf : E.Expr
  supportSup : E.Expr
  parameters : List E.Sym
  densityAt : E.Sym → E.Expr

/-- The integrand of Fisher entry `(i, j)` (lines 49–51):
`simplify(symPDF * diff(ln(symPDF), parameters[i]) * diff(ln(symPDF), parameters[j]))`. -/
def fisherIntegrand (E : SymEngine) (rv : RandomVar E) (p q : E.Sym) : E.Expr :=
  E.simplify (E.mul (E.mul (rv.densityAt E.xSym) (E.diff (E.ln (rv.densityAt E.xSym)) p))
    (E.diff (E.ln (rv.densityAt E.xSym)) q))

/-- `func = summation if support.is_iterable else integrate` (line 46). -/
def reduceOp (E : SymEngine) (rv : RandomVar E) : E.Expr → E.Sym × E.Expr × E.Expr → E.Expr :=
  if rv.supportIterable then E.summation else E.integrate

/-- The Fisher information matrix `G` (lines 43–52): entry `(i, j)` is the
reduction of the `(i, j)` integrand over `(x, support.inf, support.sup)`. -/
def fisherMatrix (E : SymEngine) (rv : RandomVar E) :
    Matrix (Fin rv.parameters.length) (Fin rv.parameters.length) E.Expr :=
  fun i j =>
    reduceOp E rv (fisherIntegrand E rv (rv.parameters.get i) (rv.parameters.get j))
      (E.xSym, rv.supportInf, rv.supportSup)

/-- `symJeff = simplify(sqrt(G.det()))` (line 55). -/
def symJeff (E : SymEngine) (rv : RandomVar E) : E.Expr :=
  E.simplify (E.sqrt (E.det (fisherMatrix E rv)))

/-- Lines 33–58 (`getJeffreysPrior`): returns the symbolic Jeffreys prior
and `lambdify(parameters, symJeff, 'numpy')`. -/
def getJeffreysPrior (E : SymEngine) (rv : RandomVar E) : E.Expr × (List ℝ → ℝ) :=
  (symJeff E rv, E.lambdify rv.parameters (symJeff E rv))

/-- A concrete engine: expressions are real constants (no symbol ever
occurs free), multiplication is real multiplication, `det` the real matrix
determinant, `lambdify`/`evalAt` evaluation to the constant itself.  Every
`SymEngine` law holds; it instantiates the generic theorems at a concrete
input. -/
noncomputable def constEngine : SymEngine where
  Expr := ℝ
  Sym := ℕ
  decEq := inferInstance
  xSym := 0
  mul := fun a b => a * b
  ln := Real.log
  sqrt := Real.sqrt
  diff := fun _ _ => 0
  simplify := id
  integrate := fun e _ => e
  summation := fun e _ => e
  det := fun M => M.det
  lambdify := fun _ e _ => e
  evalAt := fun e _ => e
  freeSymbols := fun _ => ∅
  mul_comm := fun a b => by ring
  mul_assoc := fun a b c => by ring
  freeSymbols_mul := fun _ _ => Set.empty_subset _
  freeSymbols_ln := fun _ => Set.empty_subset _
  freeSymbols_sqrt := fun _ => Set.empty_subset _
  freeSymbols_diff := fun _ _ => Set.empty_subset _
  freeSymbols_simplify := fun _ => Set.empty_subset _
  freeSymbols_integrate := fun _ _ _ _ => Set.empty_subset _
  freeSymbols_summation := fun _ _ _ _ => Set.empty_subset _
  freeSymbols_det := fun _ => Set.empty_subset _
  lambdify_spec := fun _ _ _ => rfl

/-- A concrete random-variable descriptor over `constEngine`: continuous
support `[0, 1]`, one free parameter (symbol `1`), constant density. -/
noncomputable def constRV : RandomVar constEngine where
  supportIterable := false
  supportInf := (0 : ℝ)
  supportSup := (1 : ℝ)
  parameters := [(1 : ℕ)]
  densityAt := fun _ => (1 : ℝ)

/-! ### Claim theorems for the generic component -/

/-- **C3**: every ordered pair `(i, j)` of free parameters gets its Fisher
entry computed independently as the reduction, over the support, of
`f(x) · ∂/∂θᵢ[ln f(x)] · ∂/∂θⱼ[ln f(x)]`, and the resulting matrix is
symmetric: entry `(i, j)` equals entry `(j, i)` (by commutativity and
associativity of the engine's product). -/
theorem claim_C3_fisher_entries_symmetric (E : SymEngine) (rv : RandomVar E)
    (i j : Fin rv.parameters.length) :
    (fisherMatrix E rv i j =
      reduceOp E rv
        (E.simplify (E.mul
          (E.mul (rv.densityAt E.xSym)
            (E.diff (E.ln (rv.densityAt E.xSym)) (rv.parameters.get i)))
          (E.diff (E.ln (rv.densityAt E.xSym)) (rv.parameters.get j))))
        (E.xSym, rv.supportInf, rv.supportSup))
    ∧ fisherMatrix E rv i j = fisherMatrix E rv j i := by
  refine ⟨rfl, ?_⟩
  unfold fisherMatrix fisherIntegrand
  have h : ∀ a b c, E.mul (E.mul a b) c = E.mul (E.mul a c) b := by
    intro a b c
    rw [E.mul_assoc, E.mul_comm b c, ← E.mul_assoc]
  rw [h]

/-- **C5**: the reduction operator of each Fisher entry is chosen by the
support kind — definite summation when the support is enumerable, definite
integration otherwise, over `(x, support.inf, support.sup)` either way. -/
theorem claim_C5_reduction_operator (E : SymEngine) (rv : RandomVar E) :
    (rv.supportIterable = true →
      ∀ i j : Fin rv.parameters.length,
        fisherMatrix E rv i j =
          E.summation (fisherIntegrand E rv (rv.parameters.get i) (rv.parameters.get j))
            (E.xSym, rv.supportInf, rv.supportSup))
    ∧ (rv.supportIterable = false →
      ∀ i j : Fin rv.parameters.length,
        fisherMatrix E rv i j =
          E.integrate (fisherIntegrand E rv (rv.parameters.get i) (rv.parameters.get j))
            (E.xSym, rv.supportInf, rv.supportSup)) := by
  constructor
  · intro h i j
    unfold fisherMatrix reduceOp
    rw [h]
    simp
  · intro h i j
    unfold fisherMatrix reduceOp
    rw [h]
    simp

lemma fisherIntegrand_freeSymbols (E : SymEngine) (rv : RandomVar E)
    (hpdf : E.freeSymbols (rv.densityAt E.xSym) ⊆ {v | v ∈ rv.parameters} ∪ {E.xSym})
    (p q : E.Sym) :
    E.freeSymbols (fisherIntegrand E rv p q) ⊆ {v | v ∈ rv.parameters} ∪ {E.xSym} := by
  unfold fisherIntegrand
  refine (E.freeSymbols_simplify _).trans ((E.freeSymbols_mul _ _).trans ?_)
  refine Set.union_subset ((E.freeSymbols_mul _ _).trans (Set.union_subset hpdf ?_)) ?_
  · exact (E.freeSymbols_diff _ _).trans ((E.freeSymbols_ln _).trans hpdf)
  · exact (E.freeSymbols_diff _ _).trans ((E.freeSymbols_ln _).trans hpdf)

lemma fisherMatrix_freeSymbols (E : SymEngine) (rv : RandomVar E)
    (hpdf : E.freeSymbols (rv.densityAt E.xSym) ⊆ {v | v ∈ rv.parameters} ∪ {E.xSym})
    (hinf : E.freeSymbols rv.supportInf ⊆ {v | v ∈ rv.parameters})
    (hsup : E.freeSymbols rv.supportSup ⊆ {v | v ∈ rv.parameters})
    (i j : Fin rv.parameters.length) :
    E.freeSymbols (fisherMatrix E rv i j) ⊆ {v | v ∈ rv.parameters} := by
  have hint := fisherIntegrand_freeSymbols E rv hpdf
    (rv.parameters.get i) (rv.parameters.get j)
  have key : ∀ red : E.Expr → E.Sym × E.Expr × E.Expr → E.Expr,
      (∀ a v lo hi, E.freeSymbols (red a (v, lo, hi)) ⊆
        (E.freeSymbols a \ {v}) ∪ E.freeSymbols lo ∪ E.freeSymbols hi) →
      E.freeSymbols (red (fisherIntegrand E rv (rv.parameters.get i) (rv.parameters.get j))
        (E.xSym, rv.supportInf, rv.supportSup)) ⊆ {v | v ∈ rv.parameters} := by
    intro red hred
    refine (hred _ _ _ _).trans ?_
    intro v hv
    rcases hv with (⟨hva, hvx⟩ | hvlo) | hvsup
    · rcases hint hva with hvp | hvx'
      · exact hvp
      · exact absurd hvx' hvx
    · exact hinf hvlo
    · exact hsup hvsup
  unfold fisherMatrix reduceOp
  cases rv.supportIterable
  · simpa using key E.integrate E.freeSymbols_integrate
  · simpa using key E.summation E.freeSymbols_summation

/-- **C4**: the symbolic result of `getJeffreysPrior` is
`simplify(sqrt(det(G)))` for the Fisher information matrix `G`, and —
provided the density's symbols are among the free parameters and the
variate `x`, the support bounds' symbols among the free parameters, and `x`
is not itself a parameter — its free symbols lie among the free parameters
alone, with no residual dependence on `x`. -/
theorem claim_C4_symbolic_prior (E : SymEngine) (rv : RandomVar E)
    (hpdf : E.freeSymbols (rv.densityAt E.xSym) ⊆ {v | v ∈ rv.parameters} ∪ {E.xSym})
    (hinf : E.freeSymbols rv.supportInf ⊆ {v | v ∈ rv.parameters})
    (hsup : E.freeSymbols rv.supportSup ⊆ {v | v ∈ rv.parameters})
    (hx : E.xSym ∉ rv.parameters) :
    (getJeffreysPrior E rv).1 = E.simplify (E.sqrt (E.det (fisherMatrix E rv)))
    ∧ E.freeSymbols (getJeffreysPrior E rv).1 ⊆ {v | v ∈ rv.parameters}
    ∧ E.xSym ∉ E.freeSymbols (getJeffreysPrior E rv).1 := by
  have hsub : E.freeSymbols (getJeffreysPrior E rv).1 ⊆ {v | v ∈ rv.parameters} := by
    show E.freeSymbols (symJeff E rv) ⊆ {v | v ∈ rv.parameters}
    unfold symJeff
    refine (E.freeSymbols_simplify _).trans ((E.freeSymbols_sqrt _).trans
      ((E.freeSymbols_det _).trans ?_))
    refine Set.iUnion_subset fun i => Set.iUnion_subset fun j => ?_
    exact fisherMatrix_freeSymbols E rv hpdf hinf hsup i j
  exact ⟨rfl, hsub, fun hmem => hx (hsub hmem)⟩

/-- Witness for C4 at `constEngine`/`constRV` (no symbol is free in any
constant expression, and the variate symbol `0` is not the parameter `1`). -/
theorem claim_C4_symbolic_prior_witness :
    constEngine.xSym ∉ constRV.parameters ∧
    constEngine.xSym ∉ constEngine.freeSymbols (getJeffreysPrior constEngine constRV).1 := by
  have hx : constEngine.xSym ∉ constRV.parameters := by
    show (0 : ℕ) ∉ [(1 : ℕ)]
    decide
  exact ⟨hx, (claim_C4_symbolic_prior constEngine constRV (Set.empty_subset _)
    (Set.empty_subset _) (Set.empty_subset _) hx).2.2⟩

/-- **C8**: the callable returned by `getJeffreysPrior` takes one argument
per free parameter, bound positionally to exactly the list
`rv.parameters` — the same list, in the same order, whose `i`-th element
indexes row `i` and column `i` of the Fisher information matrix. -/
theorem claim_C8_argument_order (E : SymEngine) (rv : RandomVar E) (args : List ℝ) :
    ((getJeffreysPrior E rv).2 args =
      E.evalAt (symJeff E rv) (@positionalBind _ E.decEq rv.parameters args))
    ∧ ∀ i j : Fin rv.parameters.length,
        fisherMatrix E rv i j =
          reduceOp E rv (fisherIntegrand E rv (rv.parameters.get i) (rv.parameters.get j))
            (E.xSym, rv.supportInf, rv.supportSup) :=
  ⟨E.lambdify_spec _ _ _, fun _ _ => rfl⟩

/-- **C9**: `getJeffreysPrior` is a pure function of the descriptor — the
embedding of straight-line code with no I/O and no mutation — so equal
descriptors yield the same symbolic expression and the same callable. -/
theorem claim_C9_deterministic (E : SymEngine) (rv₁ rv₂ : RandomVar E)
    (h : rv₁ = rv₂) :
    (getJeffreysPrior E rv₁).1 = (getJeffreysPrior E rv₂).1
    ∧ ∀ args, (getJeffreysPrior E rv₁).2 args = (getJeffreysPrior E rv₂).2 args := by
  subst h
  exact ⟨rfl, fun _ => rfl⟩

/-- Witness for C9 at `constEngine`/`constRV`. -/
theorem claim_C9_deterministic_witness :
    constRV = constRV ∧
    (getJeffreysPrior constEngine constRV).1 = (getJeffreysPrior constEngine constRV).1 :=
  ⟨rfl, (claim_C9_deterministic constEngine constRV constRV rfl).1⟩

end Jeffreys
